import Mathlib

/-!
# Verification of the ccusage-web Python agent (src/agent/agent.py)

A shallow embedding of the agent's collection–deduplication–reporting
pipeline: JSON values, the entry validator (`_validate_entry`), the
timestamp parser (`_parse_timestamp`), file ordering
(`_get_earliest_timestamp` / `find_jsonl_files`), record collection
(`collect_records`), the state store (`State`), and the batch reporter
(`_send_batch` / `report_usage`).  Python dicts are association lists,
Python sets are insertion-ordered duplicate-free lists, and the network
is an oracle assigning a response to each batch index.
-/

namespace Agent

/-- A parsed JSON value, as `json.loads` produces it: `null`, booleans,
numbers (modelled as integers), strings, arrays and objects
(association lists with distinct keys). -/
inductive Json where
  | null
  | jbool (b : Bool)
  | jnum (n : Int)
  | jstr (s : String)
  | jarr (xs : List Json)
  | jobj (kvs : List (String × Json))

/-- Dictionary lookup on an object's fields (`dict.__getitem__` /
`dict.get` with the keys unique, as `json.loads` guarantees). -/
def jget (kvs : List (String × Json)) (k : String) : Option Json :=
  (kvs.find? (fun kv => kv.1 == k)).map (fun kv => kv.2)

/-- `dict.get(k)`: `None` when the key is absent, so a stored JSON
`null` and a missing key are indistinguishable, exactly as in Python. -/
def pyGet (kvs : List (String × Json)) (k : String) : Json :=
  match jget kvs k with
  | some v => v
  | none => Json.null

/-- Python truthiness of a JSON-decoded value (`bool(x)`). -/
def truthy : Json → Bool
  | Json.null => false
  | Json.jbool b => b
  | Json.jnum n => n != 0
  | Json.jstr s => !(s == "")
  | Json.jarr xs => !xs.isEmpty
  | Json.jobj kvs => !kvs.isEmpty

/-- `x or y` on JSON-decoded Python values. -/
def pyOr (a b : Json) : Json := if truthy a then a else b

/-- `repr()` of a container value (string escaping inside `repr` of a
str is elided: the agent only ever formats ids, numbers and
booleans). -/
def pyRepr : Json → String
  | Json.null => "None"
  | Json.jbool true => "True"
  | Json.jbool false => "False"
  | Json.jnum n => toString n
  | Json.jstr s => "\x27" ++ s ++ "\x27"
  | Json.jarr xs =>
      "[" ++ String.intercalate ", " (xs.attach.map (fun x => pyRepr x.1)) ++ "]"
  | Json.jobj kvs =>
      "\x7b" ++
        String.intercalate ", "
          (kvs.attach.map
            (fun x => "\x27" ++ x.1.1 ++ "\x27: " ++ pyRepr x.1.2)) ++
        "\x7d"
termination_by v => sizeOf v
decreasing_by
  · simp only [Json.jarr.sizeOf_spec]
    have := List.sizeOf_lt_of_mem x.2
    omega
  · simp only [Json.jobj.sizeOf_spec]
    have h1 := List.sizeOf_lt_of_mem x.2
    have h2 : sizeOf x.1.2 < sizeOf x.1 := by
      obtain ⟨⟨k, v⟩, hx⟩ := x
      simp only [Prod.mk.sizeOf_spec]
      omega
    omega

/-- `str()` of a JSON-decoded Python value, as an f-string interpolates
it: a str stays itself, scalars print as their `repr`, containers fall
back to `pyRepr`. -/
def pyStr : Json → String
  | Json.jstr s => s
  | Json.null => "None"
  | Json.jbool true => "True"
  | Json.jbool false => "False"
  | Json.jnum n => toString n
  | v => pyRepr v

/-- Structural equality of JSON-decoded Python values (`==`; object
comparison is order-sensitive here, where Python's is not — the agent
only ever compares strings, in the `set()` built by `load()`). -/
def jsonEq : Json → Json → Bool
  | Json.null, Json.null => true
  | Json.jbool a, Json.jbool b => a == b
  | Json.jnum a, Json.jnum b => a == b
  | Json.jstr a, Json.jstr b => a == b
  | Json.jarr xs, Json.jarr ys =>
      xs.length == ys.length &&
        (List.zip xs ys).attach.all (fun p => jsonEq p.1.1 p.1.2)
  | Json.jobj xs, Json.jobj ys =>
      xs.length == ys.length &&
        (List.zip xs ys).attach.all
          (fun p => p.1.1.1 == p.1.2.1 && jsonEq p.1.1.2 p.1.2.2)
  | _, _ => false
termination_by a _ => sizeOf a
decreasing_by
  · simp only [Json.jarr.sizeOf_spec]
    obtain ⟨⟨a, b⟩, hp⟩ := p
    have := List.sizeOf_lt_of_mem (List.of_mem_zip hp).1
    simp only
    omega
  · simp only [Json.jobj.sizeOf_spec]
    obtain ⟨⟨⟨k, v⟩, w⟩, hp⟩ := p
    have h1 := List.sizeOf_lt_of_mem (List.of_mem_zip hp).1
    simp only [Prod.mk.sizeOf_spec] at h1 ⊢
    omega

/-- All characters are ASCII decimal digits (`\d` of the pattern; the
agent's timestamps are ASCII). -/
def allDigits (cs : List Char) : Bool := cs.all Char.isDigit

/-- The body of `_ISO_TS_RE`:
`^\d{4}-\d{2}-\d{2}T\d{2}:\d{2}:\d{2}(?:\.\d{3})?Z$` matched against an
exact character list (without the trailing-newline allowance of `$`). -/
def isoCore (cs : List Char) : Bool :=
  match cs with
  | [a, b, c, d, '-', e, f, '-', g, h, 'T', i, j, ':', k, l, ':', m, n, 'Z'] =>
      allDigits [a, b, c, d, e, f, g, h, i, j, k, l, m, n]
  | [a, b, c, d, '-', e, f, '-', g, h, 'T', i, j, ':', k, l, ':', m, n, '.',
     p, q, r, 'Z'] =>
      allDigits [a, b, c, d, e, f, g, h, i, j, k, l, m, n, p, q, r]
  | _ => false

/-- `_ISO_TS_RE.match(ts)` as a boolean: Python's `$` also matches just
before one trailing newline, hence the second disjunct. -/
def isoMatch (s : String) : Bool :=
  isoCore s.toList ||
    (s.toList.getLast? == some '\n' && isoCore s.toList.dropLast)

/-- Lines 186–189 of `_validate_entry`: the timestamp field must be a
string matching `_ISO_TS_RE`. -/
def tsFieldOk (entry : List (String × Json)) : Bool :=
  match jget entry "timestamp" with
  | some (Json.jstr ts) => isoMatch ts
  | _ => false

/-- `isinstance(x, (int, float))` on a JSON-decoded value.  Python
booleans are a subclass of `int`, so a boolean passes the check. -/
def isNumericPy : Option Json → Bool
  | some (Json.jnum _) => true
  | some (Json.jbool _) => true
  | _ => false

/-- Lines 191–201 of `_validate_entry`: `message` must be an object,
`message.usage` must be an object, and `usage.input_tokens` /
`usage.output_tokens` must be numbers. -/
def msgUsageOk (entry : List (String × Json)) : Bool :=
  match jget entry "message" with
  | some (Json.jobj msg) =>
      (match jget msg "usage" with
       | some (Json.jobj usage) =>
           isNumericPy (jget usage "input_tokens") &&
             isNumericPy (jget usage "output_tokens")
       | _ => false)
  | _ => false

/-- `_validate_entry` on a decoded dict (a non-dict raises
`AttributeError`, handled at the call site). -/
def validateEntry (entry : List (String × Json)) : Bool :=
  tsFieldOk entry && msgUsageOk entry

/-- The validated timestamp field of an entry (`entry['timestamp']`,
guaranteed by `validateEntry` to be a string). -/
def tsOf (entry : List (String × Json)) : String :=
  match jget entry "timestamp" with
  | some (Json.jstr ts) => ts
  | _ => ""

/-- Gregorian leap year, as `datetime` implements it. -/
def isLeap (y : Nat) : Bool := y % 4 == 0 && (y % 100 != 0 || y % 400 == 0)

/-- Days in a month, as `datetime` validates a day of month. -/
def daysInMonth (y m : Nat) : Nat :=
  if m == 2 then (if isLeap y then 29 else 28)
  else if m == 4 || m == 6 || m == 9 || m == 11 then 30
  else 31

/-- The numeric value of a list of decimal digit characters. -/
def natOfDigits (cs : List Char) : Nat :=
  cs.foldl (fun a c => a * 10 + (c.toNat - 48)) 0

/-- Days since 1970-01-01 of a Gregorian date (the civil-from-days
algorithm `datetime.timestamp` amounts to for aware UTC datetimes);
`y ≥ 1` here, as `datetime` enforces. -/
def daysFromCivil (y m d : Nat) : Int :=
  let yAdj := if m ≤ 2 then y - 1 else y
  let era := yAdj / 400
  let yoe := yAdj % 400
  let mp := (m + 9) % 12
  let doy := (153 * mp + 2) / 5 + (d - 1)
  let doe := yoe * 365 + yoe / 4 - yoe / 100 + doy
  (era * 146097 + doe : Int) - 719468

/-- The field ranges `datetime.fromisoformat` enforces: year 1–9999,
month 1–12, day within the month, hour ≤ 23, minute and second ≤ 59. -/
def validCalendar (y mo d h mi s : Nat) : Bool :=
  1 ≤ y && 1 ≤ mo && mo ≤ 12 && 1 ≤ d && d ≤ daysInMonth y mo &&
    h ≤ 23 && mi ≤ 59 && s ≤ 59

/-- Epoch seconds of a valid UTC datetime with millisecond part `frac`,
truncated toward zero as Python's `int()` truncates the float
`datetime.timestamp()`. -/
def epochSeconds (y mo d h mi s frac : Nat) : Int :=
  let base : Int := daysFromCivil y mo d * 86400 + h * 3600 + mi * 60 + s
  if 0 ≤ base || frac == 0 then base else base + 1

/-- `datetime.fromisoformat(ts.replace('Z', '+00:00')).timestamp()`
followed by `int()`, for the strings `_parse_timestamp` receives
(validated timestamps): `none` models the `ValueError` of a string
whose fields do not form a valid calendar date-time, or a shape
`fromisoformat` refuses (such as a trailing newline let through by the
regex's `$`). -/
def parseIsoDatetime (str : String) : Option Int :=
  match str.toList with
  | [a, b, c, d, '-', e, f, '-', g, h, 'T', i, j, ':', k, l, ':', m, n, 'Z'] =>
      let y := natOfDigits [a, b, c, d]
      let mo := natOfDigits [e, f]
      let dd := natOfDigits [g, h]
      let hh := natOfDigits [i, j]
      let mi := natOfDigits [k, l]
      let ss := natOfDigits [m, n]
      if allDigits [a, b, c, d, e, f, g, h, i, j, k, l, m, n] &&
          validCalendar y mo dd hh mi ss then
        some (epochSeconds y mo dd hh mi ss 0)
      else none
  | [a, b, c, d, '-', e, f, '-', g, h, 'T', i, j, ':', k, l, ':', m, n, '.',
     p, q, r, 'Z'] =>
      let y := natOfDigits [a, b, c, d]
      let mo := natOfDigits [e, f]
      let dd := natOfDigits [g, h]
      let hh := natOfDigits [i, j]
      let mi := natOfDigits [k, l]
      let ss := natOfDigits [m, n]
      let frac := natOfDigits [p, q, r]
      if allDigits [a, b, c, d, e, f, g, h, i, j, k, l, m, n, p, q, r] &&
          validCalendar y mo dd hh mi ss then
        some (epochSeconds y mo dd hh mi ss frac)
      else none
  | _ => none

/-- Whether a timestamp string names a valid calendar date-time in the
agent's accepted shape: the spec-side notion "denotes a valid calendar
date-time" used to state claims about `_parse_timestamp`. -/
def validCalendarString (str : String) : Bool :=
  match str.toList with
  | [a, b, c, d, '-', e, f, '-', g, h, 'T', i, j, ':', k, l, ':', m, n, 'Z'] =>
      allDigits [a, b, c, d, e, f, g, h, i, j, k, l, m, n] &&
        validCalendar (natOfDigits [a, b, c, d]) (natOfDigits [e, f])
          (natOfDigits [g, h]) (natOfDigits [i, j]) (natOfDigits [k, l])
          (natOfDigits [m, n])
  | [a, b, c, d, '-', e, f, '-', g, h, 'T', i, j, ':', k, l, ':', m, n, '.',
     p, q, r, 'Z'] =>
      allDigits [a, b, c, d, e, f, g, h, i, j, k, l, m, n, p, q, r] &&
        validCalendar (natOfDigits [a, b, c, d]) (natOfDigits [e, f])
          (natOfDigits [g, h]) (natOfDigits [i, j]) (natOfDigits [k, l])
          (natOfDigits [m, n])
  | _ => false

/-- `_parse_timestamp`: epoch seconds of the string, or the current
wall-clock time `int(time.time())` when parsing raises. -/
def parseTimestamp (str : String) (now : Int) : Int :=
  match parseIsoDatetime str with
  | some t => t
  | none => now

/-! ## StateStore (`class State`)

The in-memory state the pipeline mutates holds only values
`mark_reported` writes — an integer timestamp and a Python `set` of
record-id strings, modelled as an insertion-ordered list without
duplicates. -/

/-- The in-memory `State`: `last_reported_timestamp` and
`reported_records`. -/
structure AgentState where
  lastReportedTimestamp : Int
  reportedRecords : List String
deriving DecidableEq, Repr

/-- `State.is_reported`. -/
def isReported (st : AgentState) (rid : String) : Bool :=
  st.reportedRecords.contains rid

/-- `State.mark_reported`: adds the id to the set (a no-op when already
present) and stamps `last_reported_timestamp` with the current time. -/
def markReported (st : AgentState) (rid : String) (now : Int) : AgentState :=
  { lastReportedTimestamp := now,
    reportedRecords :=
      if st.reportedRecords.contains rid then st.reportedRecords
      else st.reportedRecords ++ [rid] }

/-- `State.save`: persists `lastReportedTimestamp` and
`list(self.reported_records)[-10000:]` — the last 10000 elements of the
set in its (unspecified, here insertion) iteration order. -/
def saveState (st : AgentState) : List String × Int :=
  (st.reportedRecords.drop (st.reportedRecords.length - 10000),
   st.lastReportedTimestamp)

/-! ## StateStore `load()`

`load()` can absorb arbitrary JSON, so its result is modelled
separately with `Json`-typed fields. -/

/-- What the state file holds when `load()` runs. -/
inductive FileContent where
  | missing
  | notJson
  | value (v : Json)

/-- Python `in` over a list of JSON-decoded values. -/
def pyElem (v : Json) (l : List Json) : Bool := l.any (fun w => jsonEq w v)

/-- `set(xs)` of an iterated sequence: duplicates dropped (iteration
order of a Python set is unspecified; first occurrence kept here). -/
def pySetOfList (xs : List Json) : List Json :=
  xs.foldl (fun acc v => if pyElem v acc then acc else acc ++ [v]) []

/-- Iterating a JSON-decoded value, as `set(x)` does: a list yields its
elements, a string its characters, a dict its keys; anything else
raises `TypeError` (`none`). -/
def pyIterate : Json → Option (List Json)
  | Json.jarr xs => some xs
  | Json.jstr s => some (s.toList.map (fun c => Json.jstr (String.singleton c)))
  | Json.jobj kvs => some (kvs.map (fun kv => Json.jstr kv.1))
  | _ => none

/-- The state after `State.__init__` ran `load()` on the given file
content: defaults are `0` and the empty set; a raised exception is
caught and logged, keeping whatever fields were assigned before it. -/
structure LoadedState where
  lastReportedTimestamp : Json
  reportedRecords : List Json

/-- `State.load` (lines 106–115): missing file or unparseable JSON
keeps the defaults; a non-dict value raises `AttributeError` at
`data.get` before any assignment; a dict assigns the timestamp first,
then builds the set — a non-iterable `reportedRecords` raises
`TypeError` after the timestamp was already assigned. -/
def loadState : FileContent → LoadedState
  | FileContent.missing => ⟨Json.jnum 0, []⟩
  | FileContent.notJson => ⟨Json.jnum 0, []⟩
  | FileContent.value (Json.jobj kvs) =>
      let ts := match jget kvs "lastReportedTimestamp" with
        | some v => v
        | none => Json.jnum 0
      (match pyIterate (match jget kvs "reportedRecords" with
          | some v => v
          | none => Json.jarr []) with
       | some xs => ⟨ts, pySetOfList xs⟩
       | none => ⟨ts, []⟩)
  | FileContent.value _ => ⟨Json.jnum 0, []⟩

/-! ## FileScanner (`_get_earliest_timestamp`, `find_jsonl_files`) -/

/-- A discovered `.jsonl` file: its path and its lines as `json.loads`
sees them (`none` = a blank or unparseable line). -/
structure LogFile where
  path : String
  lines : List (Option Json)

/-- One line's contribution to `_get_earliest_timestamp`: a parsed dict
whose `timestamp` value is a string longer than 10 characters with `-`
at index 4 yields that string; any other line is skipped (a non-dict
raises `AttributeError`, caught by the blanket `except`). -/
def lineTsKey : Option Json → Option String
  | some (Json.jobj kvs) =>
      (match jget kvs "timestamp" with
       | some (Json.jstr ts) =>
           if ts.length > 10 && ts.toList.getD 4 ' ' == '-' then some ts
           else none
       | _ => none)
  | _ => none

/-- `_get_earliest_timestamp`: the first line's qualifying timestamp,
else the sentinel `"z"` sorting such files last. -/
def getEarliestTimestamp : List (Option Json) → String
  | [] => "z"
  | l :: rest =>
      match lineTsKey l with
      | some ts => ts
      | none => getEarliestTimestamp rest

/-- The sort key `find_jsonl_files` passes to `list.sort`. -/
def fileKey (f : LogFile) : String := getEarliestTimestamp f.lines

/-- The comparison `list.sort(key=_get_earliest_timestamp)` sorts by:
Python compares the key strings lexicographically by code points,
i.e. lexicographically on their character lists. -/
def fileLE (a b : LogFile) : Prop := (fileKey a).toList ≤ (fileKey b).toList

instance : DecidableRel fileLE :=
  fun a b => inferInstanceAs (Decidable ((fileKey a).toList ≤ (fileKey b).toList))

/-- `find_jsonl_files` on an already-discovered list of files: a stable
sort by `_get_earliest_timestamp` (Python's `list.sort` is stable;
insertion sort is the same stable sort). -/
def sortFiles (files : List LogFile) : List LogFile :=
  List.insertionSort fileLE files

/-! ## Collector (`collect_records`) -/

/-- Lines 251–257: the dedup hash.  `message.id` and top-level
`requestId` are fetched with `.get` (so a JSON `null` equals a missing
key); when both are non-`None` the hash is
`f'{message_id}:{request_id}'`, otherwise `None`. -/
def entryHashKvs (entry : List (String × Json)) : Option String :=
  let msg := match jget entry "message" with
    | some (Json.jobj m) => m
    | _ => []
  let mid := pyGet msg "id"
  let rid := pyGet entry "requestId"
  match mid, rid with
  | Json.null, _ => none
  | _, Json.null => none
  | _, _ => some (pyStr mid ++ ":" ++ pyStr rid)

/-- The numeric value of a validated token count
(`isinstance(x, (int, float))` admits numbers and booleans;
`True + True == 2`). -/
def pyNumVal : Json → Int
  | Json.jnum n => n
  | Json.jbool true => 1
  | Json.jbool false => 0
  | _ => 0

/-- `+` on two validated token counts. -/
def pyAdd (a b : Json) : Json := Json.jnum (pyNumVal a + pyNumVal b)

/-- The reportable unit built at lines 243–282 of `collect_records`. -/
structure UsageRecord where
  input_tokens : Json
  output_tokens : Json
  total_tokens : Json
  cache_create_tokens : Json
  cache_read_tokens : Json
  session_id : Json
  model : Json
  timestamp : Int
  record_id : String

/-- Lines 243–282: the record a validated entry produces, including its
`_record_id` — `f"{file_path}:{unique_hash or composite}"` where the
composite interpolates the timestamp and the four token counts (a
defined hash always contains `:` and is truthy, so `or` picks it). -/
def mkRecord (now : Int) (path : String) (entry : List (String × Json)) :
    UsageRecord :=
  let msg := match jget entry "message" with
    | some (Json.jobj m) => m
    | _ => []
  let usage := match jget msg "usage" with
    | some (Json.jobj u) => u
    | _ => []
  let inputTokens := pyGet usage "input_tokens"
  let outputTokens := pyGet usage "output_tokens"
  let cacheCreate := pyOr (pyGet usage "cache_creation_input_tokens") (Json.jnum 0)
  let cacheRead := pyOr (pyGet usage "cache_read_input_tokens") (Json.jnum 0)
  let timestamp := parseTimestamp (tsOf entry) now
  let recordId := path ++ ":" ++
    (match entryHashKvs entry with
     | some h => h
     | none =>
         toString timestamp ++ ":" ++ pyStr inputTokens ++ ":" ++
           pyStr outputTokens ++ ":" ++ pyStr cacheCreate ++ ":" ++
           pyStr cacheRead)
  { input_tokens := inputTokens,
    output_tokens := outputTokens,
    total_tokens := pyAdd inputTokens outputTokens,
    cache_create_tokens := cacheCreate,
    cache_read_tokens := cacheRead,
    session_id := pyOr (pyGet entry "sessionId") (pyGet entry "session_id"),
    model := pyGet msg "model",
    timestamp := timestamp,
    record_id := recordId }

/-- The per-file loop of `collect_records` (lines 232–284), threading
the pass-global `processed_hashes` and `records` accumulators.  A blank
or unparseable line is skipped; a validated dict entry is deduplicated
by hash (added to the set before the cross-run `is_reported` check) and
appended unless its record id is already reported; a JSON line that is
not a dict raises `AttributeError` in `_validate_entry`, which the
inner `except (JSONDecodeError, KeyError)` does not catch, aborting the
rest of the file (caught at line 286). -/
def processLines (now : Int) (st : List String) (path : String) :
    List (Option Json) → List String → List UsageRecord →
      List String × List UsageRecord
  | [], hashes, records => (hashes, records)
  | none :: rest, hashes, records => processLines now st path rest hashes records
  | some (Json.jobj entry) :: rest, hashes, records =>
      if validateEntry entry then
        match entryHashKvs entry with
        | some h =>
            if hashes.contains h then
              processLines now st path rest hashes records
            else
              let r := mkRecord now path entry
              if st.contains r.record_id then
                processLines now st path rest (hashes ++ [h]) records
              else
                processLines now st path rest (hashes ++ [h]) (records ++ [r])
        | none =>
            let r := mkRecord now path entry
            if st.contains r.record_id then
              processLines now st path rest hashes records
            else
              processLines now st path rest hashes (records ++ [r])
      else processLines now st path rest hashes records
  | some _ :: _, hashes, records => (hashes, records)

/-- The outer loop of `collect_records` over all files. -/
def collectFiles (now : Int) (st : List String) :
    List LogFile → List String → List UsageRecord →
      List String × List UsageRecord
  | [], hashes, records => (hashes, records)
  | f :: fs, hashes, records =>
      let hr := processLines now st f.path f.lines hashes records
      collectFiles now st fs hr.1 hr.2

/-- `collect_records(files, state)`: `st` is
`state.reported_records` (never mutated during a pass), `now` the
wall-clock time `_parse_timestamp` falls back to. -/
def collectRecords (files : List LogFile) (st : List String) (now : Int) :
    List UsageRecord :=
  (collectFiles now st files [] []).2

/-! ## Reporter (`_send_batch`, `report_usage`) -/

/-- The server's response to one `POST`: a 2xx answer whose body parsed
as JSON (`none` = `json.loads` raised, caught by the blanket
`except`), an `HTTPError`, a `URLError`, or any other exception. -/
inductive NetResponse where
  | http2xx (body : Option Json)
  | httpError (code : Nat) (body : String)
  | netError (reason : String)
  | otherError

/-- Whether `_send_batch` reaches the success path on this response. -/
def netOk : NetResponse → Bool
  | NetResponse.http2xx (some _) => true
  | _ => false

/-- The in-memory state plus the persisted state file
(`reportedRecords`, `lastReportedTimestamp`) as `save()` last wrote
it. -/
structure World where
  state : AgentState
  disk : List String × Int
deriving DecidableEq, Repr

/-- Lines 337–338: `for r in batch: state.mark_reported(r['_record_id'])`. -/
def markBatch (st : AgentState) (batch : List UsageRecord) (now : Int) :
    AgentState :=
  batch.foldl (fun s r => markReported s r.record_id now) st

/-- `_send_batch`: on a parseable 2xx response every record of the
batch is marked reported and the state saved; on any failure
(`HTTPError`, `URLError`, unparseable body, anything else) nothing
changes and `False` is returned. -/
def sendBatch (batch : List UsageRecord) (resp : NetResponse) (w : World)
    (now : Int) : World × Bool :=
  match resp with
  | NetResponse.http2xx (some _) =>
      let st := markBatch w.state batch now
      ({ state := st, disk := saveState st }, true)
  | _ => (w, false)

/-- `BATCH_SIZE = 500`. -/
def BATCH_SIZE : Nat := 500

/-- The batches `for i in range(0, total, BATCH_SIZE)` slices:
`records[i:i+BATCH_SIZE]` for each batch index. -/
def chunks (records : List UsageRecord) : List (List UsageRecord) :=
  (List.range ((records.length + BATCH_SIZE - 1) / BATCH_SIZE)).map
    (fun i => (records.drop (BATCH_SIZE * i)).take BATCH_SIZE)

/-- The loop body of `report_usage`: send each batch in order, passing
the batch's index to the network oracle; the first failing send breaks
the loop and returns `False`. -/
def reportBatches (net : Nat → NetResponse) (now : Int) :
    List (List UsageRecord) → Nat → World → World × Bool
  | [], _, w => (w, true)
  | b :: bs, k, w =>
      match sendBatch b (net k) w now with
      | (w2, true) => reportBatches net now bs (k + 1) w2
      | (w2, false) => (w2, false)

/-- `report_usage(records, config, state)`: an empty record list
reports success immediately; otherwise the batches are sent strictly
sequentially until the first failure. -/
def reportUsage (records : List UsageRecord) (net : Nat → NetResponse)
    (w : World) (now : Int) : World × Bool :=
  if records.isEmpty then (w, true)
  else reportBatches net now (chunks records) 0 w

/-- A line either fails validation or carries a timestamp that
`datetime.fromisoformat` accepts (the regex admits calendar-invalid
strings, whose records get wall-clock timestamps). -/
def lineTsOK : Option Json → Bool
  | some (Json.jobj kvs) =>
      !(validateEntry kvs) || (parseIsoDatetime (tsOf kvs)).isSome
  | _ => true

/-- Whether every line a pass can validate carries a timestamp that
`datetime.fromisoformat` accepts: the determinism side condition for
idempotence of the pipeline. -/
def tsOKB (files : List LogFile) : Bool :=
  files.all (fun f => f.lines.all lineTsOK)

/-- The pass-global `processed_hashes` set left by one file's lines:
the first projection of `processLines`, which depends only on the lines
and the incoming set (not on the state, the wall clock or the records
accumulated so far). -/
def hashesAfter : List (Option Json) → List String → List String
  | [], hashes => hashes
  | none :: rest, hashes => hashesAfter rest hashes
  | some (Json.jobj entry) :: rest, hashes =>
      if validateEntry entry then
        match entryHashKvs entry with
        | some h =>
            if hashes.contains h then hashesAfter rest hashes
            else hashesAfter rest (hashes ++ [h])
        | none => hashesAfter rest hashes
      else hashesAfter rest hashes
  | some _ :: _, hashes => hashes

/-- `hashesAfter` over all files of a pass. -/
def hashesAfterFiles : List LogFile → List String → List String
  | [], hashes => hashes
  | f :: fs, hashes => hashesAfterFiles fs (hashesAfter f.lines hashes)

/-! ## Instrumented collector

`processLinesG` is `processLines` with each emitted record paired with
the DedupHash of its source entry (a ghost annotation used to state
that no two records of one pass share a defined hash); projecting the
pair away recovers `processLines` exactly. -/

/-- `processLines`, emitting `(DedupHash of the source entry, record)`
pairs. -/
def processLinesG (now : Int) (st : List String) (path : String) :
    List (Option Json) → List String → List (Option String × UsageRecord) →
      List String × List (Option String × UsageRecord)
  | [], hashes, records => (hashes, records)
  | none :: rest, hashes, records =>
      processLinesG now st path rest hashes records
  | some (Json.jobj entry) :: rest, hashes, records =>
      if validateEntry entry then
        match entryHashKvs entry with
        | some h =>
            if hashes.contains h then
              processLinesG now st path rest hashes records
            else
              let r := mkRecord now path entry
              if st.contains r.record_id then
                processLinesG now st path rest (hashes ++ [h]) records
              else
                processLinesG now st path rest (hashes ++ [h])
                  (records ++ [(some h, r)])
        | none =>
            let r := mkRecord now path entry
            if st.contains r.record_id then
              processLinesG now st path rest hashes records
            else
              processLinesG now st path rest hashes (records ++ [(none, r)])
      else processLinesG now st path rest hashes records
  | some _ :: _, hashes, records => (hashes, records)

/-- `collectFiles`, instrumented like `processLinesG`. -/
def collectFilesG (now : Int) (st : List String) :
    List LogFile → List String → List (Option String × UsageRecord) →
      List String × List (Option String × UsageRecord)
  | [], hashes, records => (hashes, records)
  | f :: fs, hashes, records =>
      let hr := processLinesG now st f.path f.lines hashes records
      collectFilesG now st fs hr.1 hr.2

/-- `collectRecords`, instrumented like `processLinesG`. -/
def collectRecordsG (files : List LogFile) (st : List String) (now : Int) :
    List (Option String × UsageRecord) :=
  (collectFilesG now st files [] []).2

/-- The invariant tying the instrumented accumulator to the processed
hash set: every defined ghost hash is already in the set, and no two
entries of the accumulator share a defined hash. -/
def GoodG (hashes : List String) (l : List (Option String × UsageRecord)) : Prop :=
  (∀ p ∈ l, ∀ h, p.1 = some h → h ∈ hashes) ∧
  l.Pairwise (fun a b => ∀ h, a.1 = some h → b.1 ≠ some h)

/-! ## Concrete inputs used by the example conjuncts and witnesses -/

/-- A usage object with the two required numeric token counts. -/
def goodUsage : List (String × Json) :=
  [("input_tokens", Json.jnum 1), ("output_tokens", Json.jnum 2)]

/-- A fully valid entry carrying both `message.id` and `requestId`. -/
def entWithIdsKvs : List (String × Json) :=
  [("timestamp", Json.jstr "2024-01-01T00:00:00Z"),
   ("message", Json.jobj [("id", Json.jstr "m1"),
     ("usage", Json.jobj goodUsage), ("model", Json.jstr "opus")]),
   ("requestId", Json.jstr "r1"), ("sessionId", Json.jstr "s1")]

/-- A valid entry with neither `message.id` nor `requestId`: its
DedupHash is undefined. -/
def entNoIdsKvs : List (String × Json) :=
  [("timestamp", Json.jstr "2024-01-01T00:00:00Z"),
   ("message", Json.jobj [("usage", Json.jobj goodUsage)])]

/-- An id-less entry whose timestamp matches the regex but is no
calendar date-time. -/
def entBadTsKvs : List (String × Json) :=
  [("timestamp", Json.jstr "2024-13-40T99:99:99Z"),
   ("message", Json.jobj [("usage", Json.jobj goodUsage)])]

/-- A legacy-shaped entry: token counts under a top-level `usage`. -/
def entLegacyTop : List (String × Json) :=
  [("timestamp", Json.jstr "2024-01-01T00:00:00Z"),
   ("usage", Json.jobj goodUsage)]

/-- A legacy-shaped entry: camel-cased `inputTokens`/`outputTokens`. -/
def entLegacyCamel : List (String × Json) :=
  [("timestamp", Json.jstr "2024-01-01T00:00:00Z"),
   ("message", Json.jobj [("usage",
     Json.jobj [("inputTokens", Json.jnum 1), ("outputTokens", Json.jnum 2)])])]

/-- A log file whose first line's timestamp is 2024-01-01. -/
def fileDay1 : LogFile :=
  ⟨"day1.jsonl", [some (Json.jobj [("timestamp", Json.jstr "2024-01-01T00:00:00Z")])]⟩

/-- A log file whose first line's timestamp is 2024-01-02. -/
def fileDay2 : LogFile :=
  ⟨"day2.jsonl", [some (Json.jobj [("timestamp", Json.jstr "2024-01-02T00:00:00Z")])]⟩

/-- A log file with no parseable timestamp in any line. -/
def fileNoTs : LogFile :=
  ⟨"nots.jsonl", [none, some (Json.jobj [("note", Json.jstr "hello")])]⟩

/-- A file whose only timestamp string passes the scanner's shape check
(length > 10, `-` at index 4) without being a valid ISO-8601
timestamp. -/
def fileJunkTs : LogFile :=
  ⟨"junk.jsonl", [some (Json.jobj [("timestamp", Json.jstr "0000-aaaaaaa")])]⟩

/-- The empty world: fresh in-memory state, nothing persisted. -/
def w0 : World := ⟨⟨0, []⟩, ([], 0)⟩

/-- The record collected from `entWithIdsKvs` in file `f`. -/
def r0ids : UsageRecord := mkRecord 0 "f" entWithIdsKvs

/-- A network that acknowledges every batch with an empty JSON body. -/
def netAllOk : Nat → NetResponse :=
  fun _ => NetResponse.http2xx (some (Json.jobj []))

/-- A network that acknowledges batch 0 and rejects every later batch
with a 500. -/
def netFailAfterFirst : Nat → NetResponse :=
  fun k => if k == 0 then NetResponse.http2xx (some (Json.jobj []))
           else NetResponse.httpError 500 "boom"

/-! ## Validator lemmas (C5, C6) -/

/-- The timestamp clause of the validator, spelled as the spec words
it: some string field matching the pattern. -/
lemma tsFieldOk_iff (entry : List (String × Json)) :
    tsFieldOk entry = true ↔
      ∃ ts, jget entry "timestamp" = some (Json.jstr ts) ∧ isoMatch ts = true := by
  unfold tsFieldOk
  split <;> simp_all

/-- The message clause of the validator, spelled as the spec words
it. -/
lemma msgUsageOk_iff (entry : List (String × Json)) :
    msgUsageOk entry = true ↔
      ∃ msg, jget entry "message" = some (Json.jobj msg) ∧
        ∃ usage, jget msg "usage" = some (Json.jobj usage) ∧
          isNumericPy (jget usage "input_tokens") = true ∧
          isNumericPy (jget usage "output_tokens") = true := by
  unfold msgUsageOk
  split
  · split <;> simp_all
  · simp_all

/-- C5.  `_validate_entry` accepts exactly the canonical schema — a
string `timestamp` matching `_ISO_TS_RE`, an object `message` with an
object `usage` whose `input_tokens` and `output_tokens` are numbers
(`isinstance(·, (int, float))`) — and in particular rejects the legacy
shapes with a top-level `usage` or `inputTokens`/`outputTokens` naming,
and a rejected entry produces no record. -/
theorem c5_validator_schema (entry : List (String × Json)) :
    (validateEntry entry = true ↔
      ((∃ ts, jget entry "timestamp" = some (Json.jstr ts) ∧ isoMatch ts = true) ∧
        ∃ msg, jget entry "message" = some (Json.jobj msg) ∧
          ∃ usage, jget msg "usage" = some (Json.jobj usage) ∧
            isNumericPy (jget usage "input_tokens") = true ∧
            isNumericPy (jget usage "output_tokens") = true)) ∧
    validateEntry entLegacyTop = false ∧
    validateEntry entLegacyCamel = false ∧
    collectRecords
      [⟨"f", [some (Json.jobj entLegacyTop), some (Json.jobj entLegacyCamel)]⟩]
      [] 0 = [] := by
  refine ⟨?_, by decide, by decide, rfl⟩
  rw [show validateEntry entry = (tsFieldOk entry && msgUsageOk entry) from rfl]
  rw [Bool.and_eq_true, tsFieldOk_iff, msgUsageOk_iff]

/-- C6.  The timestamp check is a literal pattern match, not calendar
validation: any entry whose message clause is valid and whose timestamp
is the calendar-invalid string `2024-13-40T99:99:99Z` is accepted. -/
theorem c6_pattern_only_timestamp (entry : List (String × Json))
    (hmsg : msgUsageOk entry = true)
    (hts : jget entry "timestamp" = some (Json.jstr "2024-13-40T99:99:99Z")) :
    validateEntry entry = true ∧
    isoMatch "2024-13-40T99:99:99Z" = true ∧
    validCalendarString "2024-13-40T99:99:99Z" = false := by
  refine ⟨?_, by decide, by decide⟩
  rw [show validateEntry entry = (tsFieldOk entry && msgUsageOk entry) from rfl]
  rw [Bool.and_eq_true]
  refine ⟨?_, hmsg⟩
  unfold tsFieldOk
  rw [hts]
  decide

/-- Witness for C6: the concrete entry `entBadTsKvs` satisfies both
hypotheses and is accepted. -/
theorem c6_witness :
    msgUsageOk entBadTsKvs = true ∧
    jget entBadTsKvs "timestamp" = some (Json.jstr "2024-13-40T99:99:99Z") ∧
    (validateEntry entBadTsKvs = true ∧
      isoMatch "2024-13-40T99:99:99Z" = true ∧
      validCalendarString "2024-13-40T99:99:99Z" = false) :=
  ⟨by decide, rfl,
    c6_pattern_only_timestamp entBadTsKvs (by decide) rfl⟩

/-! ## StateStore lemmas (C8, C9) -/

/-- `a in` a replicated list of a different string is false. -/
lemma contains_replicate_ne {a b : String} (h : (a == b) = false) :
    ∀ n, (List.replicate n b).contains a = false := by
  intro n
  induction n with
  | zero => rfl
  | succ k ih =>
    rw [List.replicate_succ]
    simp only [List.contains_cons, h, ih, Bool.or_self]

/-- C8.  `save()` never persists more than 10000 record ids, and
marking a 10001st distinct id then saving persists exactly 10000 (one
entry of the set iteration is dropped). -/
theorem c8_state_cap (st : AgentState) (rid : String) (now : Int) :
    (saveState st).1.length ≤ 10000 ∧
    (st.reportedRecords.length = 10000 →
      st.reportedRecords.contains rid = false →
      (markReported st rid now).reportedRecords.length = 10001 ∧
      (saveState (markReported st rid now)).1.length = 10000) := by
  constructor
  · simp only [saveState, List.length_drop]
    omega
  · intro hlen hfresh
    have hmark : (markReported st rid now).reportedRecords =
        st.reportedRecords ++ [rid] := by
      unfold markReported
      rw [hfresh]
      simp
    constructor
    · simp [hmark, hlen]
    · simp only [saveState, hmark, List.length_drop, List.length_append, hlen]
      omega

/-- Witness for C8 at a concrete 10000-id state and a fresh id. -/
theorem c8_state_cap_witness :
    (⟨0, List.replicate 10000 "a"⟩ : AgentState).reportedRecords.length = 10000 ∧
    (⟨0, List.replicate 10000 "a"⟩ : AgentState).reportedRecords.contains "b" = false ∧
    (saveState ⟨0, List.replicate 10000 "a"⟩).1.length ≤ 10000 ∧
    (saveState (markReported ⟨0, List.replicate 10000 "a"⟩ "b" 5)).1.length = 10000 := by
  have h1 : (⟨0, List.replicate 10000 "a"⟩ : AgentState).reportedRecords.length = 10000 :=
    List.length_replicate 10000 "a"
  have h2 : (⟨0, List.replicate 10000 "a"⟩ : AgentState).reportedRecords.contains "b" = false :=
    contains_replicate_ne (by decide) 10000
  have h := c8_state_cap ⟨0, List.replicate 10000 "a"⟩ "b" 5
  exact ⟨h1, h2, h.1, (h.2 h1 h2).2⟩

/-- C9 counterexample: a state file holding JSON of the wrong shape —
an object whose `reportedRecords` is the number `42` — does *not* yield
the empty state: the wrong-typed `lastReportedTimestamp` value `7` is
kept (assigned before the `TypeError` that `set(42)` raises), so the
loaded timestamp is not zero. -/
theorem c9_counterexample :
    loadState (FileContent.value (Json.jobj
      [("lastReportedTimestamp", Json.jnum 7),
       ("reportedRecords", Json.jnum 42)])) =
      ⟨Json.jnum 7, []⟩ ∧
    Json.jnum 7 ≠ Json.jnum 0 := by
  exact ⟨rfl, by simp⟩

/-- C9 amended.  `load()` on a missing file, on unparseable JSON, or on
a top-level JSON value that is not an object yields the empty state
(zero timestamp, empty set) without failing; a top-level object is
absorbed field-wise instead, so wrong-typed fields can survive. -/
theorem c9_load_empty_amended (v : Json) :
    loadState FileContent.missing = ⟨Json.jnum 0, []⟩ ∧
    loadState FileContent.notJson = ⟨Json.jnum 0, []⟩ ∧
    ((∀ kvs, v ≠ Json.jobj kvs) →
      loadState (FileContent.value v) = ⟨Json.jnum 0, []⟩) := by
  refine ⟨rfl, rfl, ?_⟩
  intro hv
  cases v with
  | jobj kvs => exact absurd rfl (hv kvs)
  | null => rfl
  | jbool b => rfl
  | jnum n => rfl
  | jstr s => rfl
  | jarr xs => rfl

/-! ## Timestamp fallback (C10) -/

/-- When `fromisoformat` succeeds the string's fields formed a valid
calendar date-time. -/
lemma validCalendarString_of_parse {s : String} {t : Int}
    (h : parseIsoDatetime s = some t) : validCalendarString s = true := by
  unfold parseIsoDatetime at h
  unfold validCalendarString
  split at h
  case h_1 a b c d e f g hh i j k l m n heq =>
    simp only [Option.ite_none_right_eq_some] at h
    exact h.1
  case h_2 a b c d e f g hh i j k l m n p q r heq =>
    simp only [Option.ite_none_right_eq_some] at h
    exact h.1
  case h_3 => exact absurd h (by simp)

/-- C10.  For a timestamp that matches the validator's pattern but is
no valid calendar date-time, `_parse_timestamp` does not raise and
returns the current wall-clock time, which becomes the collected
record's epoch-second timestamp — shown generally and on the concrete
entry with timestamp `2024-13-40T99:99:99Z`. -/
theorem c10_invalid_ts_fallback (s : String) (now : Int)
    (_hpat : isoMatch s = true) (hcal : validCalendarString s = false) :
    parseTimestamp s now = now ∧
    (collectRecords [⟨"f", [some (Json.jobj entBadTsKvs)]⟩] [] now).map
      (fun r => r.timestamp) = [now] := by
  constructor
  · unfold parseTimestamp
    cases hp : parseIsoDatetime s with
    | none => rfl
    | some t =>
        rw [validCalendarString_of_parse hp] at hcal
        exact absurd hcal (by simp)
  · rfl

/-- Witness for C10 at the concrete pattern-valid, calendar-invalid
timestamp. -/
theorem c10_invalid_ts_fallback_witness :
    isoMatch "2024-13-40T99:99:99Z" = true ∧
    validCalendarString "2024-13-40T99:99:99Z" = false ∧
    (parseTimestamp "2024-13-40T99:99:99Z" 42 = 42 ∧
      (collectRecords [⟨"f", [some (Json.jobj entBadTsKvs)]⟩] [] 42).map
        (fun r => r.timestamp) = [42]) :=
  ⟨by decide, by decide,
    c10_invalid_ts_fallback "2024-13-40T99:99:99Z" 42 (by decide) (by decide)⟩

/-! ## FileScanner ordering (C7) -/

instance : IsTotal LogFile fileLE :=
  ⟨fun a b => le_total (fileKey a).toList (fileKey b).toList⟩

instance : IsTrans LogFile fileLE :=
  ⟨fun _ _ _ hab hbc => le_trans hab hbc⟩

/-- C7 counterexample: the scanner's key extraction is a shape check
(string longer than 10 with `-` at index 4), not ISO-8601 validity, and
the sentinel `"z"` is not maximal.  The file `fileJunkTs`, whose only
timestamp string `0000-aaaaaaa` is not a valid ISO-8601 timestamp (the
regex rejects it), nevertheless receives it as sort key and is ordered
*before* the genuinely timestamped `fileDay1` — the claim instead puts
files with no valid timestamp after all timestamped files. -/
theorem c7_counterexample :
    sortFiles [fileDay1, fileJunkTs] = [fileJunkTs, fileDay1] ∧
    isoMatch "0000-aaaaaaa" = false ∧
    fileKey fileJunkTs = "0000-aaaaaaa" ∧
    fileKey fileDay1 = "2024-01-01T00:00:00Z" := by
  exact ⟨rfl, by decide, rfl, rfl⟩

/-- C7 amended.  `find_jsonl_files` sorts the discovered files stably
ascending by `_get_earliest_timestamp` — the `timestamp` string of the
first line that parses as JSON and whose timestamp is a string longer
than 10 characters with `-` at index 4 (a shape check, not ISO-8601
validity), files with no such line receiving the sentinel key `"z"` —
and on the claim's concrete example (days 1 and 2 plus an
untimestamped file) this orders them [day 1, day 2, untimestamped]. -/
theorem c7_file_ordering_amended (files : List LogFile) :
    (sortFiles files).Sorted fileLE ∧
    (sortFiles files).Perm files ∧
    sortFiles [fileNoTs, fileDay2, fileDay1] = [fileDay1, fileDay2, fileNoTs] := by
  exact ⟨List.sorted_insertionSort fileLE files,
    List.perm_insertionSort fileLE files, rfl⟩

/-! ## Deduplicator lemmas (C2, C3) -/

/-- Projecting the ghost hash away from `processLinesG` recovers
`processLines`. -/
lemma processLinesG_proj (now : Int) (st : List String) (path : String) :
    ∀ (lines : List (Option Json)) (hashes : List String)
      (gacc : List (Option String × UsageRecord)),
      processLines now st path lines hashes (gacc.map Prod.snd) =
        ((processLinesG now st path lines hashes gacc).1,
         (processLinesG now st path lines hashes gacc).2.map Prod.snd) := by
  intro lines
  induction lines with
  | nil => intro hashes gacc; rfl
  | cons l rest ih =>
    intro hashes gacc
    cases l with
    | none => exact ih hashes gacc
    | some j =>
      cases j with
      | jobj entry =>
        simp only [processLines, processLinesG]
        by_cases hv : validateEntry entry = true
        · simp only [hv, if_true]
          cases hh : entryHashKvs entry with
          | some h =>
            by_cases hc : hashes.contains h = true
            · simp only [hc, if_true]
              exact ih hashes gacc
            · simp only [Bool.not_eq_true] at hc
              simp only [hc, Bool.false_eq_true, if_false]
              by_cases hr :
                  st.contains (mkRecord now path entry).record_id = true
              · simp only [hr, if_true]
                exact ih (hashes ++ [h]) gacc
              · simp only [Bool.not_eq_true] at hr
                simp only [hr, Bool.false_eq_true, if_false]
                have := ih (hashes ++ [h]) (gacc ++ [(some h, mkRecord now path entry)])
                simpa [List.map_append] using this
          | none =>
            by_cases hr : st.contains (mkRecord now path entry).record_id = true
            · simp only [hr, if_true]
              exact ih hashes gacc
            · simp only [Bool.not_eq_true] at hr
              simp only [hr, Bool.false_eq_true, if_false]
              have := ih hashes (gacc ++ [(none, mkRecord now path entry)])
              simpa [List.map_append] using this
        · simp only [Bool.not_eq_true] at hv
          simp only [hv, Bool.false_eq_true, if_false]
          exact ih hashes gacc
      | null => rfl
      | jbool b => rfl
      | jnum n => rfl
      | jstr s => rfl
      | jarr xs => rfl

/-- Projection of the instrumented collector at the pass level. -/
lemma collectFilesG_proj (now : Int) (st : List String) :
    ∀ (files : List LogFile) (hashes : List String)
      (gacc : List (Option String × UsageRecord)),
      collectFiles now st files hashes (gacc.map Prod.snd) =
        ((collectFilesG now st files hashes gacc).1,
         (collectFilesG now st files hashes gacc).2.map Prod.snd) := by
  intro files
  induction files with
  | nil => intro hashes gacc; rfl
  | cons f fs ih =>
    intro hashes gacc
    simp only [collectFiles, collectFilesG]
    rw [show processLines now st f.path f.lines hashes (gacc.map Prod.snd) =
      ((processLinesG now st f.path f.lines hashes gacc).1,
       (processLinesG now st f.path f.lines hashes gacc).2.map Prod.snd) from
      processLinesG_proj now st f.path f.lines hashes gacc]
    exact ih _ _

/-- The pass output of `collect_records` is the projection of the
instrumented pass. -/
lemma collectRecordsG_proj (files : List LogFile) (st : List String) (now : Int) :
    collectRecords files st now = (collectRecordsG files st now).map Prod.snd := by
  unfold collectRecords collectRecordsG
  have := collectFilesG_proj now st files [] []
  simp only [List.map_nil] at this
  rw [this]

/-- A step of the instrumented collector preserves `GoodG`. -/
lemma processLinesG_inv (now : Int) (st : List String) (path : String) :
    ∀ (lines : List (Option Json)) (hashes : List String)
      (gacc : List (Option String × UsageRecord)),
      GoodG hashes gacc →
      GoodG (processLinesG now st path lines hashes gacc).1
        (processLinesG now st path lines hashes gacc).2 := by
  intro lines
  induction lines with
  | nil => intro hashes gacc hg; exact hg
  | cons l rest ih =>
    intro hashes gacc hg
    cases l with
    | none => exact ih hashes gacc hg
    | some j =>
      cases j with
      | jobj entry =>
        simp only [processLinesG]
        by_cases hv : validateEntry entry = true
        · simp only [hv, if_true]
          cases hh : entryHashKvs entry with
          | some h =>
            by_cases hc : hashes.contains h = true
            · simp only [hc, if_true]
              exact ih hashes gacc hg
            · simp only [Bool.not_eq_true] at hc
              simp only [hc, Bool.false_eq_true, if_false]
              have hnotmem : h ∉ hashes := by
                intro hmem
                rw [show hashes.contains h = hashes.elem h from rfl,
                  List.elem_iff.2 hmem] at hc
                exact Bool.true_eq_false ▸ hc.symm ▸ (by simp at hc)
              have hsup : GoodG (hashes ++ [h]) gacc := by
                refine ⟨fun p hp h' hph => ?_, hg.2⟩
                exact List.mem_append_left _ (hg.1 p hp h' hph)
              by_cases hr :
                  st.contains (mkRecord now path entry).record_id = true
              · simp only [hr, if_true]
                exact ih (hashes ++ [h]) gacc hsup
              · simp only [Bool.not_eq_true] at hr
                simp only [hr, Bool.false_eq_true, if_false]
                refine ih (hashes ++ [h]) _ ⟨?_, ?_⟩
                · intro p hp h' hph
                  rcases List.mem_append.1 hp with hold | hnew
                  · exact List.mem_append_left _ (hg.1 p hold h' hph)
                  · simp only [List.mem_singleton] at hnew
                    subst hnew
                    simp only at hph
                    cases hph
                    exact List.mem_append_right _ (List.mem_singleton_self h)
                · rw [List.pairwise_append]
                  refine ⟨hg.2, List.pairwise_singleton _ _, ?_⟩
                  intro a ha b hb h' hah
                  simp only [List.mem_singleton] at hb
                  subst hb
                  simp only [ne_eq, Option.some.injEq]
                  intro hcontra
                  apply hnotmem
                  rw [hcontra]
                  exact hg.1 a ha h' hah
          | none =>
            by_cases hr : st.contains (mkRecord now path entry).record_id = true
            · simp only [hr, if_true]
              exact ih hashes gacc hg
            · simp only [Bool.not_eq_true] at hr
              simp only [hr, Bool.false_eq_true, if_false]
              refine ih hashes _ ⟨?_, ?_⟩
              · intro p hp h' hph
                rcases List.mem_append.1 hp with hold | hnew
                · exact hg.1 p hold h' hph
                · simp only [List.mem_singleton] at hnew
                  subst hnew
                  simp only at hph
                  cases hph
              · rw [List.pairwise_append]
                refine ⟨hg.2, List.pairwise_singleton _ _, ?_⟩
                intro a ha b hb h' hah
                simp only [List.mem_singleton] at hb
                subst hb
                simp
        · simp only [Bool.not_eq_true] at hv
          simp only [hv, Bool.false_eq_true, if_false]
          exact ih hashes gacc hg
      | null => exact hg
      | jbool b => exact hg
      | jnum n => exact hg
      | jstr s => exact hg
      | jarr xs => exact hg

/-- The pass-level instrumented collector preserves `GoodG`. -/
lemma collectFilesG_inv (now : Int) (st : List String) :
    ∀ (files : List LogFile) (hashes : List String)
      (gacc : List (Option String × UsageRecord)),
      GoodG hashes gacc →
      GoodG (collectFilesG now st files hashes gacc).1
        (collectFilesG now st files hashes gacc).2 := by
  intro files
  induction files with
  | nil => intro hashes gacc hg; exact hg
  | cons f fs ih =>
    intro hashes gacc hg
    simp only [collectFilesG]
    exact ih _ _ (processLinesG_inv now st f.path f.lines hashes gacc hg)

/-- C2.  Intra-run deduplication: annotating each record of a pass with
the DedupHash of its source entry (`collectRecordsG`, whose projection
is exactly `collectRecords`), no two records of one pass carry the same
defined hash — only the first entry with a given hash produces a
record — and concretely, the identical entry with both ids appearing
twice in a pass (even across two files) yields exactly one record. -/
theorem c2_intra_run_dedup (files : List LogFile) (st : List String) (now : Int) :
    collectRecords files st now = (collectRecordsG files st now).map Prod.snd ∧
    (collectRecordsG files st now).Pairwise
      (fun a b => ∀ h, a.1 = some h → b.1 ≠ some h) ∧
    (collectRecords
      [⟨"f1", [some (Json.jobj entWithIdsKvs)]⟩,
       ⟨"f2", [some (Json.jobj entWithIdsKvs), some (Json.jobj entWithIdsKvs)]⟩]
      [] 0).length = 1 := by
  refine ⟨collectRecordsG_proj files st now, ?_, rfl⟩
  have := collectFilesG_inv now st files [] [] ⟨by simp, List.Pairwise.nil⟩
  exact this.2

/-- C3.  An entry whose DedupHash is undefined undergoes no intra-run
check: processing it ignores and leaves untouched the pass's hash set,
and the entry is appended (subject only to the cross-run
`state.is_reported` check); concretely, the same id-less entry twice in
one pass produces two records. -/
theorem c3_idless_passthrough (now : Int) (st : List String) (path : String)
    (hashes : List String) (recs : List UsageRecord)
    (entry : List (String × Json)) (rest : List (Option Json))
    (hval : validateEntry entry = true)
    (hnone : entryHashKvs entry = none) :
    processLines now st path (some (Json.jobj entry) :: rest) hashes recs =
      (if st.contains (mkRecord now path entry).record_id then
        processLines now st path rest hashes recs
      else
        processLines now st path rest hashes
          (recs ++ [mkRecord now path entry])) ∧
    (collectRecords
      [⟨"f", [some (Json.jobj entNoIdsKvs), some (Json.jobj entNoIdsKvs)]⟩]
      [] 0).length = 2 := by
  refine ⟨?_, rfl⟩
  simp only [processLines, hval, hnone, if_true]

/-- Witness for C3 at the concrete id-less entry. -/
theorem c3_idless_passthrough_witness :
    validateEntry entNoIdsKvs = true ∧
    entryHashKvs entNoIdsKvs = none ∧
    ((processLines 0 [] "f" [some (Json.jobj entNoIdsKvs)] [] [] =
      (if List.contains [] (mkRecord 0 "f" entNoIdsKvs).record_id then
        processLines 0 [] "f" [] [] []
      else
        processLines 0 [] "f" [] [] ([] ++ [mkRecord 0 "f" entNoIdsKvs]))) ∧
      (collectRecords
        [⟨"f", [some (Json.jobj entNoIdsKvs), some (Json.jobj entNoIdsKvs)]⟩]
        [] 0).length = 2) :=
  ⟨by decide, rfl,
    c3_idless_passthrough 0 [] "f" [] [] entNoIdsKvs [] (by decide) rfl⟩

/-! ## Reporter lemmas (C1, C4) -/

/-- Membership after `mark_reported`. -/
lemma markReported_mem (st : AgentState) (rid : String) (now : Int) (x : String) :
    x ∈ (markReported st rid now).reportedRecords ↔
      x ∈ st.reportedRecords ∨ x = rid := by
  unfold markReported
  by_cases hc : st.reportedRecords.contains rid = true
  · rw [hc]
    simp only [if_true]
    have hin : rid ∈ st.reportedRecords := List.elem_iff.1 hc
    constructor
    · exact fun hx => Or.inl hx
    · rintro (hx | hx)
      · exact hx
      · exact hx ▸ hin
  · simp only [Bool.not_eq_true] at hc
    rw [hc]
    simp [List.mem_append]

/-- Membership after marking a whole batch. -/
lemma markBatch_mem (batch : List UsageRecord) :
    ∀ (st : AgentState) (now : Int) (x : String),
      x ∈ (markBatch st batch now).reportedRecords ↔
        x ∈ st.reportedRecords ∨ x ∈ batch.map (fun r => r.record_id) := by
  induction batch with
  | nil => intro st now x; simp [markBatch]
  | cons r rs ih =>
    intro st now x
    show x ∈ (markBatch (markReported st r.record_id now) rs now).reportedRecords ↔ _
    rw [ih, markReported_mem]
    simp [or_assoc]

/-- `markBatch` over a concatenation. -/
lemma markBatch_append (a b : List UsageRecord) (st : AgentState) (now : Int) :
    markBatch st (a ++ b) now = markBatch (markBatch st a now) b now :=
  List.foldl_append _ _ _ _

/-- A failing response leaves the world untouched. -/
lemma sendBatch_fail {resp : NetResponse} (h : netOk resp = false)
    (batch : List UsageRecord) (w : World) (now : Int) :
    sendBatch batch resp w now = (w, false) := by
  cases resp with
  | http2xx body =>
    cases body with
    | none => rfl
    | some b => exact absurd h (by simp [netOk])
  | httpError code body => rfl
  | netError reason => rfl
  | otherError => rfl

/-- An acknowledged batch is marked and saved. -/
lemma sendBatch_ok {resp : NetResponse} (h : netOk resp = true)
    (batch : List UsageRecord) (w : World) (now : Int) :
    sendBatch batch resp w now =
      (⟨markBatch w.state batch now, saveState (markBatch w.state batch now)⟩,
       true) := by
  cases resp with
  | http2xx body =>
    cases body with
    | none => exact absurd h (by simp [netOk])
    | some b => rfl
  | httpError code body => exact absurd h (by simp [netOk])
  | netError reason => exact absurd h (by simp [netOk])
  | otherError => exact absurd h (by simp [netOk])

/-- Unfolding `chunks` one batch at a time. -/
lemma chunks_cons {records : List UsageRecord} (h : records ≠ []) :
    chunks records =
      records.take BATCH_SIZE :: chunks (records.drop BATCH_SIZE) := by
  have hlen : 0 < records.length := List.length_pos.2 h
  unfold chunks
  have hn : (records.length + BATCH_SIZE - 1) / BATCH_SIZE =
      ((records.drop BATCH_SIZE).length + BATCH_SIZE - 1) / BATCH_SIZE + 1 := by
    rw [List.length_drop]
    unfold BATCH_SIZE
    omega
  rw [hn, List.range_succ_eq_map, List.map_cons]
  refine congrArg₂ (fun x xs => List.cons x xs) ?_ ?_
  · simp
  · rw [List.map_map]
    apply List.map_congr_left
    intro i _
    simp only [Function.comp_apply, List.drop_drop]
    rw [show BATCH_SIZE + BATCH_SIZE * i = BATCH_SIZE * (i + 1) by ring]

/-- The batches of a pass concatenate back to the record list. -/
lemma chunks_flatten : ∀ (records : List UsageRecord),
    (chunks records).flatten = records := by
  intro records
  by_cases h : records = []
  · subst h; rfl
  · rw [chunks_cons h]
    rw [List.flatten_cons, chunks_flatten (records.drop BATCH_SIZE),
      List.take_append_drop]
termination_by records => records.length
decreasing_by
  have := List.length_pos.2 h
  simp only [List.length_drop, BATCH_SIZE]
  omega

/-- Every batch holds at most `BATCH_SIZE` records. -/
lemma chunks_size {records : List UsageRecord} {c : List UsageRecord}
    (hc : c ∈ chunks records) : c.length ≤ BATCH_SIZE := by
  unfold chunks at hc
  rcases List.mem_map.1 hc with ⟨i, _, rfl⟩
  simp [List.length_take]

/-- The first `m` batches concatenate to the first `BATCH_SIZE * m`
records. -/
lemma chunks_take_flatten : ∀ (records : List UsageRecord) (m : Nat),
    ((chunks records).take m).flatten = records.take (BATCH_SIZE * m) := by
  intro records m
  induction m generalizing records with
  | zero => simp
  | succ k ih =>
    by_cases h : records = []
    · subst h; simp [chunks]
    · rw [chunks_cons h, List.take_succ_cons, List.flatten_cons,
        ih (records.drop BATCH_SIZE)]
      rw [show BATCH_SIZE * (k + 1) = BATCH_SIZE + BATCH_SIZE * k by ring,
        List.take_add]

/-- When the network acknowledges every batch from index `k` on, the
whole batch list is sent, every record marked, and (once at least one
batch was sent) the state persisted. -/
lemma reportBatches_ok (net : Nat → NetResponse) (now : Int) :
    ∀ (bs : List (List UsageRecord)) (k : Nat) (w : World),
      (∀ i, netOk (net (k + i)) = true) →
      reportBatches net now bs k w =
        (if bs.isEmpty then w else
          ⟨markBatch w.state bs.flatten now,
           saveState (markBatch w.state bs.flatten now)⟩,
         true) := by
  intro bs
  induction bs with
  | nil => intro k w _; rfl
  | cons b rest ih =>
    intro k w hnet
    have h0 : netOk (net k) = true := by simpa using hnet 0
    simp only [reportBatches]
    rw [sendBatch_ok h0]
    dsimp only
    rw [ih (k + 1) _ (fun i => by simpa [Nat.add_assoc] using hnet (1 + i))]
    cases rest with
    | nil => simp [markBatch_append, markBatch]
    | cons c cs => simp [markBatch_append]

/-- When the network acknowledges batches `k..k+m-1` and rejects batch
`k+m` (which exists), the reporter stops there: exactly the records of
the first `m` batches are marked, the disk holds the state saved after
the `m`-th acknowledgement (untouched when `m = 0`), and the cycle
fails. -/
lemma reportBatches_fail (net : Nat → NetResponse) (now : Int) :
    ∀ (m : Nat) (bs : List (List UsageRecord)) (k : Nat) (w : World),
      (∀ i, i < m → netOk (net (k + i)) = true) →
      netOk (net (k + m)) = false →
      m < bs.length →
      reportBatches net now bs k w =
        (⟨markBatch w.state ((bs.take m).flatten) now,
          if m = 0 then w.disk
          else saveState (markBatch w.state ((bs.take m).flatten) now)⟩,
         false) := by
  intro m
  induction m with
  | zero =>
    intro bs k w _ hfail hlen
    cases bs with
    | nil => exact absurd hlen (by simp)
    | cons b rest =>
      simp only [reportBatches]
      rw [Nat.add_zero] at hfail
      rw [sendBatch_fail hfail]
      simp [markBatch]
  | succ n ih =>
    intro bs k w hok hfail hlen
    cases bs with
    | nil => exact absurd hlen (by simp)
    | cons b rest =>
      have h0 : netOk (net k) = true := by simpa using hok 0 (Nat.succ_pos n)
      simp only [reportBatches]
      rw [sendBatch_ok h0]
      dsimp only
      rw [ih rest (k + 1) _
        (fun i hi => by
          simpa [Nat.add_assoc] using hok (1 + i) (by omega))
        (by simpa [Nat.add_assoc] using
          (show netOk (net (k + (1 + n))) = false by
            rw [show k + (1 + n) = k + (n + 1) by omega]; exact hfail))
        (by simpa using Nat.lt_of_succ_lt_succ (by simpa using hlen))]
      simp only [List.take_succ_cons, List.flatten_cons, markBatch_append]
      cases hn : n with
      | zero => simp [markBatch]
      | succ p => simp

/-- C1 counterexample: records of one pass can share a RecordID
(id-less twins do, and so do literal duplicates), and then a record of
the *failed* batch is already marked reported in the StateStore —
marked by its twin in the acknowledged batch 1 — contradicting the
claim's "no record of the failed batch … is marked reported".  Here
501 copies of one record are split 500/1, batch 0 is acknowledged and
batch 1 fails, yet the failed batch's record has its id in the
store. -/
theorem c1_counterexample :
    (reportUsage (List.replicate 501 r0ids) netFailAfterFirst w0 9).2 = false ∧
    (List.replicate 501 r0ids).drop 500 = [r0ids] ∧
    r0ids.record_id ∈
      (reportUsage (List.replicate 501 r0ids) netFailAfterFirst w0 9).1.state.reportedRecords := by
  have hne : List.replicate 501 r0ids ≠ [] := by
    intro hc
    have := congrArg List.length hc
    rw [List.length_replicate] at this
    exact absurd this (by decide)
  have hrep : reportUsage (List.replicate 501 r0ids) netFailAfterFirst w0 9 =
      (⟨markBatch w0.state (((chunks (List.replicate 501 r0ids)).take 1).flatten) 9,
        saveState (markBatch w0.state
          (((chunks (List.replicate 501 r0ids)).take 1).flatten) 9)⟩,
       false) := by
    rw [show reportUsage (List.replicate 501 r0ids) netFailAfterFirst w0 9 =
        reportBatches netFailAfterFirst 9 (chunks (List.replicate 501 r0ids)) 0 w0 by
      unfold reportUsage
      rw [if_neg (fun hc => hne (List.isEmpty_iff.1 hc))]]
    rw [reportBatches_fail netFailAfterFirst 9 1 (chunks (List.replicate 501 r0ids)) 0 w0
      (fun i hi => by
        have : i = 0 := by omega
        subst this
        rfl)
      rfl
      (by
        rw [show (chunks (List.replicate 501 r0ids)).length =
            ((List.replicate 501 r0ids).length + BATCH_SIZE - 1) / BATCH_SIZE by
          simp only [chunks, List.length_map, List.length_range]]
        rw [List.length_replicate]
        decide)]
    rfl
  refine ⟨by rw [hrep], ?_, ?_⟩
  · rw [List.drop_replicate, show (501 : Nat) - 500 = 1 by decide, List.replicate_one]
  · rw [hrep]
    simp only
    rw [chunks_take_flatten]
    have h500 : (List.replicate 501 r0ids).take (BATCH_SIZE * 1) =
        List.replicate 500 r0ids := by
      rw [List.take_replicate, show BATCH_SIZE * 1 ⊓ 501 = 500 by decide]
    rw [h500, markBatch_mem]
    right
    rw [List.map_replicate, List.mem_replicate]
    exact ⟨by decide, rfl⟩

/-- C1 amended.  The Reporter splits the records into consecutive
batches of at most 500 in input order (their concatenation is the
input) and sends them strictly sequentially.  If the first `m` batches
are acknowledged and batch `m` fails, the cycle returns failure, the
marked set is exactly the initial one plus the RecordIDs of the first
`500·m` records, the state was persisted at the last acknowledgement
(untouched if `m = 0`), and a record of the failed or a later batch is
unmarked *provided* its RecordID is fresh — not initially present and
not shared with a record of the acknowledged prefix (the proviso the
counterexample forces).  If every batch is acknowledged the cycle
succeeds with exactly the initial ids plus all RecordIDs marked; 1,200
records form exactly 3 batches of sizes 500, 500, 200. -/
theorem c1_reporter_batches_amended (records : List UsageRecord)
    (net : Nat → NetResponse) (w : World) (now : Int) (m : Nat) :
    ((chunks records).flatten = records ∧
      ∀ c ∈ chunks records, c.length ≤ BATCH_SIZE) ∧
    ((∀ i, i < m → netOk (net i) = true) → netOk (net m) = false →
      m < (chunks records).length →
      (reportUsage records net w now).2 = false ∧
      (reportUsage records net w now).1.state =
        markBatch w.state (records.take (BATCH_SIZE * m)) now ∧
      (reportUsage records net w now).1.disk =
        (if m = 0 then w.disk
         else saveState (markBatch w.state (records.take (BATCH_SIZE * m)) now)) ∧
      (∀ x, x ∈ (reportUsage records net w now).1.state.reportedRecords ↔
        x ∈ w.state.reportedRecords ∨
          x ∈ (records.take (BATCH_SIZE * m)).map (fun r => r.record_id)) ∧
      (∀ r, r ∈ records.drop (BATCH_SIZE * m) →
        r.record_id ∉ w.state.reportedRecords →
        r.record_id ∉ (records.take (BATCH_SIZE * m)).map (fun r => r.record_id) →
        r.record_id ∉ (reportUsage records net w now).1.state.reportedRecords)) ∧
    ((∀ i, netOk (net i) = true) →
      (reportUsage records net w now).2 = true ∧
      ∀ x, x ∈ (reportUsage records net w now).1.state.reportedRecords ↔
        x ∈ w.state.reportedRecords ∨
          x ∈ records.map (fun r => r.record_id)) ∧
    (records.length = 1200 →
      (chunks records).map List.length = [500, 500, 200]) := by
  refine ⟨⟨chunks_flatten records, fun c hc => chunks_size hc⟩, ?_, ?_, ?_⟩
  · intro hok hfail hlen
    have hne : records ≠ [] := by
      intro hempty
      subst hempty
      rw [show chunks ([] : List UsageRecord) = [] from rfl] at hlen
      simp at hlen
    have hrep : reportUsage records net w now =
        (⟨markBatch w.state (records.take (BATCH_SIZE * m)) now,
          if m = 0 then w.disk
          else saveState (markBatch w.state (records.take (BATCH_SIZE * m)) now)⟩,
         false) := by
      unfold reportUsage
      rw [if_neg (by simpa [List.isEmpty_iff] using hne)]
      rw [reportBatches_fail net now m (chunks records) 0 w
        (fun i hi => by simpa using hok i hi)
        (by simpa using hfail)
        hlen]
      rw [chunks_take_flatten]
    rw [hrep]
    refine ⟨rfl, rfl, rfl, ?_, ?_⟩
    · intro x
      exact markBatch_mem _ _ _ _
    · intro r _ hfresh1 hfresh2 hmem
      rcases (markBatch_mem _ _ _ _).1 hmem with hold | hnew
      · exact hfresh1 hold
      · exact hfresh2 hnew
  · intro hok
    unfold reportUsage
    by_cases hempty : records.isEmpty = true
    · rw [if_pos hempty]
      have : records = [] := List.isEmpty_iff.1 hempty
      subst this
      simp
    · rw [if_neg hempty]
      rw [reportBatches_ok net now (chunks records) 0 w (fun i => by simpa using hok i)]
      have hne : records ≠ [] := fun hc => hempty (by simp [hc])
      rw [if_neg (by rw [chunks_cons hne]; simp)]
      refine ⟨rfl, fun x => ?_⟩
      rw [chunks_flatten]
      exact markBatch_mem _ _ _ _
  · intro hlen
    unfold chunks
    rw [hlen]
    rw [show (1200 + BATCH_SIZE - 1) / BATCH_SIZE = 3 by decide]
    rw [show List.range 3 = [0, 1, 2] from rfl]
    simp only [List.map_cons, List.map_nil, List.length_take, List.length_drop, hlen]
    decide

/-! ## Idempotence lemmas (C4) -/

/-- The processed-hash set after a file depends only on the lines and
the incoming set: the hash is inserted *before* the `is_reported`
check, so neither the state, nor the wall clock, nor the record
accumulator influence it. -/
lemma processLines_fst (path : String) :
    ∀ (lines : List (Option Json)) (hashes : List String) (now : Int)
      (st : List String) (recs : List UsageRecord),
      (processLines now st path lines hashes recs).1 = hashesAfter lines hashes := by
  intro lines
  induction lines with
  | nil => intro hashes now st recs; rfl
  | cons l rest ih =>
    intro hashes now st recs
    cases l with
    | none => exact ih hashes now st recs
    | some j =>
      cases j with
      | jobj entry =>
        simp only [processLines, hashesAfter]
        by_cases hv : validateEntry entry = true
        · simp only [hv, if_true]
          cases hh : entryHashKvs entry with
          | some h =>
            by_cases hc : hashes.contains h = true
            · simp only [hc, if_true]
              exact ih hashes now st recs
            · simp only [Bool.not_eq_true] at hc
              simp only [hc, Bool.false_eq_true, if_false]
              by_cases hr :
                  st.contains (mkRecord now path entry).record_id = true
              · simp only [hr, if_true]
                exact ih (hashes ++ [h]) now st recs
              · simp only [Bool.not_eq_true] at hr
                simp only [hr, Bool.false_eq_true, if_false]
                exact ih (hashes ++ [h]) now st (recs ++ [mkRecord now path entry])
          | none =>
            by_cases hr : st.contains (mkRecord now path entry).record_id = true
            · simp only [hr, if_true]
              exact ih hashes now st recs
            · simp only [Bool.not_eq_true] at hr
              simp only [hr, Bool.false_eq_true, if_false]
              exact ih hashes now st (recs ++ [mkRecord now path entry])
        · simp only [Bool.not_eq_true] at hv
          simp only [hv, Bool.false_eq_true, if_false]
          exact ih hashes now st recs
      | null => rfl
      | jbool b => rfl
      | jnum n => rfl
      | jstr s => rfl
      | jarr xs => rfl

/-- The record accumulator only collects: the records produced by the
remaining lines are appended to it. -/
lemma processLines_acc (path : String) :
    ∀ (lines : List (Option Json)) (hashes : List String) (now : Int)
      (st : List String) (recs : List UsageRecord),
      (processLines now st path lines hashes recs).2 =
        recs ++ (processLines now st path lines hashes []).2 := by
  intro lines
  induction lines with
  | nil => intro hashes now st recs; simp [processLines]
  | cons l rest ih =>
    intro hashes now st recs
    cases l with
    | none => exact ih hashes now st recs
    | some j =>
      cases j with
      | jobj entry =>
        simp only [processLines]
        by_cases hv : validateEntry entry = true
        · simp only [hv, if_true]
          cases hh : entryHashKvs entry with
          | some h =>
            by_cases hc : hashes.contains h = true
            · simp only [hc, if_true]
              exact ih hashes now st recs
            · simp only [Bool.not_eq_true] at hc
              simp only [hc, Bool.false_eq_true, if_false]
              by_cases hr :
                  st.contains (mkRecord now path entry).record_id = true
              · simp only [hr, if_true]
                exact ih (hashes ++ [h]) now st recs
              · simp only [Bool.not_eq_true] at hr
                simp only [hr, Bool.false_eq_true, if_false]
                rw [ih (hashes ++ [h]) now st (recs ++ [mkRecord now path entry]),
                  ih (hashes ++ [h]) now st ([] ++ [mkRecord now path entry])]
                simp
          | none =>
            by_cases hr : st.contains (mkRecord now path entry).record_id = true
            · simp only [hr, if_true]
              exact ih hashes now st recs
            · simp only [Bool.not_eq_true] at hr
              simp only [hr, Bool.false_eq_true, if_false]
              rw [ih hashes now st (recs ++ [mkRecord now path entry]),
                ih hashes now st ([] ++ [mkRecord now path entry])]
              simp
        · simp only [Bool.not_eq_true] at hv
          simp only [hv, Bool.false_eq_true, if_false]
          exact ih hashes now st recs
      | null => simp [processLines]
      | jbool b => simp [processLines]
      | jnum n => simp [processLines]
      | jstr s => simp [processLines]
      | jarr xs => simp [processLines]

/-- When the entry's timestamp parses, the record built from it does
not depend on the wall clock. -/
lemma mkRecord_now_eq {entry : List (String × Json)} (path : String)
    {now1 now2 : Int} (hsome : (parseIsoDatetime (tsOf entry)).isSome = true) :
    mkRecord now1 path entry = mkRecord now2 path entry := by
  obtain ⟨t, ht⟩ := Option.isSome_iff_exists.1 hsome
  simp only [mkRecord, parseTimestamp, ht]

/-- The heart of idempotence: re-processing the same lines with the
same incoming hash set against a larger reported set — one containing
the first run's reported set and the id of every record the first run
emitted — emits nothing, because the hash-set evolution is identical
and every would-be record is either a hash-duplicate, or already
reported in the first run, or was emitted then and is reported now. -/
lemma processLines_second (path : String) :
    ∀ (lines : List (Option Json)) (hashes : List String)
      (st st2 : List String) (now1 now2 : Int),
      lines.all lineTsOK = true →
      (∀ x, st.contains x = true → st2.contains x = true) →
      (∀ r, r ∈ (processLines now1 st path lines hashes []).2 →
        st2.contains r.record_id = true) →
      ∀ recs2, processLines now2 st2 path lines hashes recs2 =
        (hashesAfter lines hashes, recs2) := by
  intro lines
  induction lines with
  | nil => intro hashes st st2 now1 now2 _ _ _ recs2; rfl
  | cons l rest ih =>
    intro hashes st st2 now1 now2 hts hsub hrep recs2
    rw [List.all_cons, Bool.and_eq_true] at hts
    cases l with
    | none => exact ih hashes st st2 now1 now2 hts.2 hsub (fun r hr => hrep r hr) recs2
    | some j =>
      cases j with
      | jobj entry =>
        simp only [processLines, hashesAfter]
        by_cases hv : validateEntry entry = true
        · simp only [hv, if_true]
          have hts1 : (parseIsoDatetime (tsOf entry)).isSome = true := by
            have := hts.1
            simp only [lineTsOK, hv, Bool.not_true, Bool.false_or] at this
            exact this
          have hrec : mkRecord now2 path entry = mkRecord now1 path entry :=
            mkRecord_now_eq path hts1
          cases hh : entryHashKvs entry with
          | some h =>
            by_cases hc : hashes.contains h = true
            · simp only [hc, if_true]
              refine ih hashes st st2 now1 now2 hts.2 hsub ?_ recs2
              intro r hr
              apply hrep
              rw [show (processLines now1 st path (some (Json.jobj entry) :: rest)
                  hashes []).2 =
                (processLines now1 st path rest hashes []).2 by
                simp only [processLines, hv, hh, hc, if_true]]
              exact hr
            · simp only [Bool.not_eq_true] at hc
              simp only [hc, Bool.false_eq_true, if_false]
              rw [hrec]
              by_cases hr1 : st.contains (mkRecord now1 path entry).record_id = true
              · rw [hsub _ hr1]
                simp only [if_true]
                refine ih (hashes ++ [h]) st st2 now1 now2 hts.2 hsub ?_ recs2
                intro r hr
                apply hrep
                rw [show (processLines now1 st path (some (Json.jobj entry) :: rest)
                    hashes []).2 =
                  (processLines now1 st path rest (hashes ++ [h]) []).2 by
                  simp only [processLines, hv, hh, hc, Bool.false_eq_true, if_false,
                    hr1, if_true]]
                exact hr
              · have hfirst : (processLines now1 st path
                    (some (Json.jobj entry) :: rest) hashes []).2 =
                    mkRecord now1 path entry ::
                      (processLines now1 st path rest (hashes ++ [h]) []).2 := by
                  simp only [Bool.not_eq_true] at hr1
                  simp only [processLines, hv, hh, hc, hr1, Bool.false_eq_true,
                    if_false, if_true]
                  rw [processLines_acc path rest (hashes ++ [h]) now1 st
                    ([] ++ [mkRecord now1 path entry])]
                  simp
                have hmarked : st2.contains (mkRecord now1 path entry).record_id = true := by
                  apply hrep
                  rw [hfirst]
                  exact List.mem_cons_self _ _
                rw [hmarked]
                simp only [if_true]
                refine ih (hashes ++ [h]) st st2 now1 now2 hts.2 hsub ?_ recs2
                intro r hr
                apply hrep
                rw [hfirst]
                exact List.mem_cons_of_mem _ hr
          | none =>
            rw [hrec]
            by_cases hr1 : st.contains (mkRecord now1 path entry).record_id = true
            · rw [hsub _ hr1]
              simp only [if_true]
              refine ih hashes st st2 now1 now2 hts.2 hsub ?_ recs2
              intro r hr
              apply hrep
              rw [show (processLines now1 st path (some (Json.jobj entry) :: rest)
                  hashes []).2 =
                (processLines now1 st path rest hashes []).2 by
                simp only [processLines, hv, hh, hr1, if_true]]
              exact hr
            · have hfirst : (processLines now1 st path
                  (some (Json.jobj entry) :: rest) hashes []).2 =
                  mkRecord now1 path entry ::
                    (processLines now1 st path rest hashes []).2 := by
                simp only [Bool.not_eq_true] at hr1
                simp only [processLines, hv, hh, hr1, Bool.false_eq_true, if_false,
                  if_true]
                rw [processLines_acc path rest hashes now1 st
                  ([] ++ [mkRecord now1 path entry])]
                simp
              have hmarked : st2.contains (mkRecord now1 path entry).record_id = true := by
                apply hrep
                rw [hfirst]
                exact List.mem_cons_self _ _
              rw [hmarked]
              simp only [if_true]
              refine ih hashes st st2 now1 now2 hts.2 hsub ?_ recs2
              intro r hr
              apply hrep
              rw [hfirst]
              exact List.mem_cons_of_mem _ hr
        · simp only [Bool.not_eq_true] at hv
          simp only [hv, Bool.false_eq_true, if_false]
          refine ih hashes st st2 now1 now2 hts.2 hsub ?_ recs2
          intro r hr
          apply hrep
          rw [show (processLines now1 st path (some (Json.jobj entry) :: rest)
              hashes []).2 =
            (processLines now1 st path rest hashes []).2 by
            simp only [processLines, hv, Bool.false_eq_true, if_false]]
          exact hr
      | null => rfl
      | jbool b => rfl
      | jnum n => rfl
      | jstr s => rfl
      | jarr xs => rfl

/-- The pass-level hash set depends only on the files and the incoming
set. -/
lemma collectFiles_fst (now : Int) (st : List String) :
    ∀ (files : List LogFile) (hashes : List String) (recs : List UsageRecord),
      (collectFiles now st files hashes recs).1 = hashesAfterFiles files hashes := by
  intro files
  induction files with
  | nil => intro hashes recs; rfl
  | cons f fs ih =>
    intro hashes recs
    simp only [collectFiles, hashesAfterFiles]
    rw [show (processLines now st f.path f.lines hashes recs).1 =
      hashesAfter f.lines hashes from processLines_fst f.path f.lines hashes now st recs]
    exact ih _ _

/-- Pass-level record accumulation. -/
lemma collectFiles_acc (now : Int) (st : List String) :
    ∀ (files : List LogFile) (hashes : List String) (recs : List UsageRecord),
      (collectFiles now st files hashes recs).2 =
        recs ++ (collectFiles now st files hashes []).2 := by
  intro files
  induction files with
  | nil => intro hashes recs; simp [collectFiles]
  | cons f fs ih =>
    intro hashes recs
    simp only [collectFiles]
    rw [show (processLines now st f.path f.lines hashes recs).1 =
        hashesAfter f.lines hashes from
      processLines_fst f.path f.lines hashes now st recs]
    rw [show (processLines now st f.path f.lines hashes []).1 =
        hashesAfter f.lines hashes from
      processLines_fst f.path f.lines hashes now st []]
    rw [processLines_acc f.path f.lines hashes now st recs]
    rw [ih (hashesAfter f.lines hashes)
      (recs ++ (processLines now st f.path f.lines hashes []).2)]
    rw [ih (hashesAfter f.lines hashes)
      (processLines now st f.path f.lines hashes []).2]
    simp

/-- A second pass over the same files with the same incoming hash set
against a reported set covering the first pass emits nothing. -/
lemma collectFiles_second :
    ∀ (files : List LogFile) (hashes : List String)
      (st st2 : List String) (now1 now2 : Int),
      files.all (fun f => f.lines.all lineTsOK) = true →
      (∀ x, st.contains x = true → st2.contains x = true) →
      (∀ r, r ∈ (collectFiles now1 st files hashes []).2 →
        st2.contains r.record_id = true) →
      ∀ recs2, collectFiles now2 st2 files hashes recs2 =
        (hashesAfterFiles files hashes, recs2) := by
  intro files
  induction files with
  | nil => intro hashes st st2 now1 now2 _ _ _ recs2; rfl
  | cons f fs ih =>
    intro hashes st st2 now1 now2 hts hsub hrep recs2
    rw [List.all_cons, Bool.and_eq_true] at hts
    have hfile : ∀ r, r ∈ (processLines now1 st f.path f.lines hashes []).2 →
        st2.contains r.record_id = true := by
      intro r hr
      apply hrep
      simp only [collectFiles]
      rw [collectFiles_acc now1 st fs
        (processLines now1 st f.path f.lines hashes []).1
        (processLines now1 st f.path f.lines hashes []).2]
      exact List.mem_append_left _ hr
    have hrest : ∀ r,
        r ∈ (collectFiles now1 st fs (hashesAfter f.lines hashes) []).2 →
        st2.contains r.record_id = true := by
      intro r hr
      apply hrep
      simp only [collectFiles]
      rw [collectFiles_acc now1 st fs
        (processLines now1 st f.path f.lines hashes []).1
        (processLines now1 st f.path f.lines hashes []).2]
      apply List.mem_append_right
      rw [show (processLines now1 st f.path f.lines hashes []).1 =
          hashesAfter f.lines hashes from
        processLines_fst f.path f.lines hashes now1 st []]
      exact hr
    simp only [collectFiles, hashesAfterFiles]
    rw [processLines_second f.path f.lines hashes st st2 now1 now2
      hts.1 hsub hfile recs2]
    exact ih (hashesAfter f.lines hashes) st st2 now1 now2 hts.2 hsub hrest recs2

/-- C4 counterexample: idempotence fails when a validated entry's
timestamp matches the regex but is calendar-invalid.  Its record id
embeds the wall-clock fallback timestamp, so an unchanged directory
re-collected at a later second (2000 vs 1000) produces the same event
again even though the first cycle was fully acknowledged. -/
theorem c4_counterexample :
    (reportUsage
      (collectRecords [⟨"f", [some (Json.jobj entBadTsKvs)]⟩]
        w0.state.reportedRecords 1000) netAllOk w0 1000).2 = true ∧
    (collectRecords [⟨"f", [some (Json.jobj entBadTsKvs)]⟩]
      (reportUsage
        (collectRecords [⟨"f", [some (Json.jobj entBadTsKvs)]⟩]
          w0.state.reportedRecords 1000) netAllOk w0 1000).1.state.reportedRecords
      2000).length = 1 := by
  exact ⟨rfl, rfl⟩

/-- C4 amended.  When every validated entry's timestamp denotes a valid
calendar date-time (so record ids are reproducible) and every batch of
the first cycle is acknowledged, re-running collection over the
unchanged files against the updated StateStore yields zero new
records. -/
theorem c4_idempotence_amended (files : List LogFile) (w : World)
    (net : Nat → NetResponse) (now1 now2 : Int)
    (hts : tsOKB files = true) (hnet : ∀ i, netOk (net i) = true) :
    collectRecords files
      ((reportUsage (collectRecords files w.state.reportedRecords now1)
        net w now1).1.state.reportedRecords) now2 = [] := by
  set st0 := w.state.reportedRecords with hst0
  set recs1 := collectRecords files st0 now1 with hrecs1
  have hmem : ∀ x, x ∈ (reportUsage recs1 net w now1).1.state.reportedRecords ↔
      x ∈ st0 ∨ x ∈ recs1.map (fun r => r.record_id) := by
    intro x
    unfold reportUsage
    by_cases hempty : recs1.isEmpty = true
    · rw [if_pos hempty]
      have hx : recs1 = [] := List.isEmpty_iff.1 hempty
      rw [hx]
      simp [hst0]
    · rw [if_neg hempty]
      rw [reportBatches_ok net now1 (chunks recs1) 0 w (fun i => by simpa using hnet i)]
      have hne : recs1 ≠ [] := fun hc => hempty (by simp [hc])
      rw [if_neg (by rw [chunks_cons hne]; simp)]
      simp only
      rw [chunks_flatten]
      exact markBatch_mem recs1 w.state now1 x
  have hsub : ∀ x, st0.contains x = true →
      (reportUsage recs1 net w now1).1.state.reportedRecords.contains x = true := by
    intro x hx
    exact List.elem_iff.2 ((hmem x).2 (Or.inl (List.elem_iff.1 hx)))
  have hcov : ∀ r,
      r ∈ (collectFiles now1 st0 files [] []).2 →
      (reportUsage recs1 net w now1).1.state.reportedRecords.contains
        r.record_id = true := by
    intro r hr
    refine List.elem_iff.2 ((hmem r.record_id).2 (Or.inr ?_))
    exact List.mem_map_of_mem _ hr
  show (collectFiles now2
    ((reportUsage recs1 net w now1).1.state.reportedRecords) files [] []).2 = []
  rw [collectFiles_second files []
    st0 ((reportUsage recs1 net w now1).1.state.reportedRecords) now1 now2
    hts hsub hcov []]

/-- Witness for C4 amended: one file with one calendar-valid entry,
first cycle fully acknowledged, second collection at a later second
yields nothing. -/
theorem c4_idempotence_amended_witness :
    tsOKB [⟨"wf", [some (Json.jobj entWithIdsKvs)]⟩] = true ∧
    (∀ i, netOk (netAllOk i) = true) ∧
    collectRecords [⟨"wf", [some (Json.jobj entWithIdsKvs)]⟩]
      ((reportUsage
        (collectRecords [⟨"wf", [some (Json.jobj entWithIdsKvs)]⟩]
          w0.state.reportedRecords 10) netAllOk w0 10).1.state.reportedRecords)
      20 = [] :=
  ⟨by decide, fun _ => rfl,
    c4_idempotence_amended [⟨"wf", [some (Json.jobj entWithIdsKvs)]⟩] w0
      netAllOk 10 20 (by decide) (fun _ => rfl)⟩

end Agent
